import Mathlib

/-!
Verification of the real-time transcription session engine of the
fire-flies-clone repository.

The development shallowly embeds the two layers the claims are about:

* the provider session client (file src/server/services/assemblyAiStreaming.ts,
  class AssemblyAIStreamingService): turn-message handling, speaker-label
  mapping, connection readiness, audio sending, and the connect timeout; and
* the session manager (the RecordingService variant built on
  AssemblyAIStreamingService): the web-socket route's event handlers,
  client-command dispatch, audio-chunk validation and forwarding, and the
  per-session registry.

JavaScript dynamic values are modelled with Option types, truthiness tests are
spelled out, Map objects become insertion-ordered association lists, and the
emitted messages and log lines are returned explicitly.  Machine integers do
not occur (all counters are unbounded in the source); audio buffers are lists
of bytes (Nat).  Word-level confidences are rationals.
-/

namespace FireFlies

/-! ### String helpers

Computable counterparts of the JavaScript string operations used by the
source.  The standard library versions of trim and toLower are written against
byte positions and do not reduce in the kernel, so the embedding carries its
own list-based versions with the same semantics as the JavaScript methods
(trim strips whitespace at both ends; replaceFirst replaces the first
occurrence only, which is what String.prototype.replace with a string pattern
does). -/

/-- Character-level whitespace test used by trimming. -/
def isWs (c : Char) : Bool :=
  c = ' ' || c = '\t' || c = '\n' || c = '\r'

/-- Drop leading whitespace from a character list. -/
def dropWsLeft : List Char → List Char
  | [] => []
  | c :: cs => if isWs c then dropWsLeft cs else c :: cs

/-- JavaScript String.prototype.trim on the character-list representation. -/
def trimChars (cs : List Char) : List Char :=
  (dropWsLeft (dropWsLeft cs).reverse).reverse

/-- JavaScript String.prototype.trim. -/
def jsTrim (s : String) : String :=
  ⟨trimChars s.data⟩

/-- ASCII lower-casing of a character (the speaker letters are ASCII). -/
def lowerChar (c : Char) : Char :=
  if 'A' ≤ c ∧ c ≤ 'Z' then Char.ofNat (c.toNat + 32) else c

/-- JavaScript String.prototype.toLowerCase on ASCII data. -/
def jsToLower (s : String) : String :=
  ⟨s.data.map lowerChar⟩

/-- Replace the first occurrence of pat by rep in a character list
(JavaScript String.prototype.replace with a string pattern). -/
def replaceFirstChars (pat rep : List Char) : List Char → List Char
  | [] => []
  | c :: cs =>
    if pat.isPrefixOf (c :: cs) then rep ++ (c :: cs).drop pat.length
    else c :: replaceFirstChars pat rep cs

/-- JavaScript String.prototype.replace with a string pattern: first
occurrence only. -/
def jsReplaceFirst (s pat rep : String) : String :=
  ⟨replaceFirstChars pat.data rep.data s.data⟩

/-- Substring containment test (String.prototype.includes). -/
def containsSub : List Char → List Char → Bool
  | _, [] => true
  | [], _ => false
  | c :: cs, pat => pat.isPrefixOf (c :: cs) || containsSub cs pat

/-- JavaScript String.prototype.includes. -/
def jsIncludes (s pat : String) : Bool :=
  containsSub s.data pat.data

/-! ### Decimal rendering and its injectivity

The speaker-label fallback renders a number with a JavaScript template
literal; the embedding uses Lean's Nat.repr for it.  The lemmas below show
Nat.repr is injective, which backs the distinct-labels property of the
speaker mapper. -/

/-- Decimal digit characters of a natural number, most significant first. -/
def natDigits (n : Nat) : List Char :=
  if n < 10 then [Nat.digitChar n]
  else natDigits (n / 10) ++ [Nat.digitChar (n % 10)]
  decreasing_by
    exact Nat.div_lt_self (by omega) (by omega)

/-- Decode a digit character back to its value. -/
def digitVal (c : Char) : Nat := c.toNat - 48

/-- Fold a digit string back into the number it denotes. -/
def decodeDigits (cs : List Char) : Nat :=
  cs.foldl (fun a c => 10 * a + digitVal c) 0

/-! ### First-occurrence order

keysNew sp seen lists, in order of first occurrence, the elements of sp that
are not in seen.  It describes both the key order of the insertion-ordered
maps built by the source (JavaScript Map objects preserve insertion order)
and the first-sighting order of speaker ids. -/

def keysNew : List String → List String → List String
  | [], _ => []
  | x :: xs, seen => if x ∈ seen then keysNew xs seen else x :: keysNew xs (seen ++ [x])

/-- Index of the first occurrence of a key in a list. -/
def firstIdx : List String → String → Nat
  | [], _ => 0
  | x :: xs, k => if x = k then 0 else firstIdx xs k + 1

/-! ### Speaker Label Mapper

Embeds the speakerLetters array and mapSpeakerToLetter of
AssemblyAIStreamingService (assemblyAiStreaming.ts lines 25 and 212-220).
The JavaScript Map speakerMapping becomes an insertion-ordered association
list; Map.size is its length. -/

/-- Source field speakerLetters: the fixed ordered alphabet. -/
def speakerLetters : List String :=
  ["A", "B", "C", "D", "E", "F", "G", "H", "I", "J", "K", "L", "M", "N", "O", "P"]

/-- Label assigned to the i-th first-seen speaker: the i-th letter when the
alphabet is not exhausted, else the numeric-suffix fallback.  Embeds the
expression speakerLetters[speakerIndex] with the logical-or fallback to the
template literal with speakerIndex + 1. -/
def speakerLabelFor (i : Nat) : String :=
  match speakerLetters.get? i with
  | some l => l
  | none => "Speaker" ++ Nat.repr (i + 1)

/-- Source method mapSpeakerToLetter: return the existing label, otherwise
assign the label for the current map size and record it. -/
def mapSpeakerToLetter (m : List (String × String)) (key : String) :
    List (String × String) × String :=
  match m.find? (fun p => p.1 == key) with
  | some p => (m, p.2)
  | none => (m ++ [(key, speakerLabelFor m.length)], speakerLabelFor m.length)

/-- The speaker map accumulated by a session that has resolved the given
sequence of provider speaker ids, in order. -/
def sessionMap (ids : List String) : List (String × String) :=
  ids.foldl (fun m i => (mapSpeakerToLetter m i).1) []

/-- The canonical shape of a speaker map: keys in first-seen order, the k-th
key labelled speakerLabelFor (i + k). -/
def enumLabeledFrom (i : Nat) : List String → List (String × String)
  | [] => []
  | k :: ks => (k, speakerLabelFor i) :: enumLabeledFrom (i + 1) ks

/-! ### Per-turn speaker counting

Embeds the speakerCounts Map built in handleTurnMessage
(assemblyAiStreaming.ts lines 158-165): set(speaker, (get(speaker) or 0) + 1)
over the words carrying a speaker, then take the head of the entries stably
sorted by descending count.  On an insertion-ordered association list the
set call is bump, and the head of the stable descending sort is the first
entry attaining the maximal count, computed by firstMax. -/

/-- Map.set(k, (Map.get(k) or 0) + 1) on an insertion-ordered association
list: update in place if present, append otherwise. -/
def bump : List (String × Nat) → String → List (String × Nat)
  | [], k => [(k, 1)]
  | p :: ps, k => if p.1 = k then (p.1, p.2 + 1) :: ps else p :: bump ps k

/-- Map.get with default 0. -/
def lookupCount (l : List (String × Nat)) (k : String) : Nat :=
  match l.find? (fun p => p.1 == k) with
  | some p => p.2
  | none => 0

/-- Head of the entry list stably sorted by descending count: the first
entry whose count is maximal (the sort comparator (a, b) => b - a is stable,
so ties keep insertion order). -/
def firstMax : List (String × Nat) → Option (String × Nat)
  | [] => none
  | p :: ps => some (ps.foldl (fun best q => if q.2 > best.2 then q else best) p)

/-- Array.from(speakerCounts.entries()).sort((a, b) => b - a)[0][0]. -/
def mostCommonSpeaker (counts : List (String × Nat)) : String :=
  match firstMax counts with
  | some p => p.1
  | none => ""

/-! ### Provider session client (AssemblyAIStreamingService)

Embeds the message-handling state and methods of assemblyAiStreaming.ts.
The web socket itself is external; its presence is the Boolean hasWebsocket
(websocket !== null), readiness is isConnected, and the provider handshake
acknowledgement is sessionStarted.  All JSON payload fields that may be
absent are Options; the source's logical-or defaults appear as getD. -/

/-- One element of a Turn message's words array. -/
structure Word where
  speaker : Option String
  confidence : Option Rat
deriving DecidableEq

/-- A provider Turn message (the fields handleTurnMessage reads). -/
structure TurnMessage where
  transcript : Option String
  words : List Word
  end_of_turn : Option Bool
  turn_order : Option Nat
  turn_is_formatted : Option Bool
deriving DecidableEq

/-- The StreamingTranscriptionChunk interface. -/
structure StreamingTranscriptionChunk where
  text : String
  timestamp : Nat
  confidence : Rat
  speaker : Option String
  isFinal : Bool
  turnOrder : Option Nat
  endOfTurn : Bool
  isFormatted : Bool
deriving DecidableEq

/-- The mutable fields of AssemblyAIStreamingService that the handlers read
and write. -/
structure ServiceState where
  hasWebsocket : Bool
  isConnected : Bool
  sessionStarted : Bool
  speakerMapping : List (String × String)
  currentTurnText : String
deriving DecidableEq

/-- Truthiness of the guard (not message.transcript or not
message.transcript.trim()) in handleTurnMessage line 147. -/
def transcriptBad (t : Option String) : Bool :=
  match t with
  | none => true
  | some s => s = "" || jsTrim s = ""

/-- JavaScript truthiness of an optional string (undefined and the empty
string are falsy). -/
def strTruthy (t : Option String) : Bool :=
  match t with
  | none => false
  | some s => s ≠ ""

/-- The speakers of the words that carry one, in word order: the result of
message.words.filter(word => word.speaker), projected to the speaker field
(only that field of the filtered words is used afterwards). -/
def wordSpeakers (ws : List Word) : List String :=
  ws.filterMap (fun w =>
    match w.speaker with
    | some s => if s = "" then none else some s
    | none => none)

/-- calculateAverageConfidence: arithmetic mean of the numeric word
confidences, 0.8 when there are none. -/
def calculateAverageConfidence (ws : List Word) : Rat :=
  if ws.length = 0 then 8 / 10
  else
    let confidences := ws.filterMap (fun w => w.confidence)
    if confidences.length = 0 then 8 / 10
    else (confidences.foldl (fun sum conf => sum + conf) 0) / confidences.length

/-- handleTurnMessage (assemblyAiStreaming.ts lines 146-198).  Returns the
updated state and the chunks passed to emit('transcription', chunk) (none
when the early return fires). -/
def handleTurnMessage (st : ServiceState) (msg : TurnMessage) (now : Nat) :
    ServiceState × List StreamingTranscriptionChunk :=
  if transcriptBad msg.transcript then (st, [])
  else
    let sp := wordSpeakers msg.words
    let resolved : List (String × String) × Option String :=
      if msg.words.length > 0 then
        if sp.length > 0 then
          let speakerCounts := sp.foldl bump []
          let mostCommon := mostCommonSpeaker speakerCounts
          let r := mapSpeakerToLetter st.speakerMapping mostCommon
          (r.1, some ("Speaker " ++ r.2))
        else (st.speakerMapping, none)
      else (st.speakerMapping, none)
    let text := msg.transcript.getD ""
    let isFin := msg.end_of_turn.getD false
    let chunk : StreamingTranscriptionChunk :=
      { text := text
        timestamp := now
        confidence := calculateAverageConfidence msg.words
        speaker := resolved.2
        isFinal := isFin
        turnOrder := msg.turn_order
        endOfTurn := isFin
        isFormatted := msg.turn_is_formatted.getD false }
    let st2 :=
      if !isFin then { st with speakerMapping := resolved.1, currentTurnText := text }
      else { st with speakerMapping := resolved.1, currentTurnText := "" }
    (st2, [chunk])

/-- Inbound provider wire messages, tagged by the type field. -/
inductive ProviderMessage where
  | beginMsg (id : String)
  | turn (msg : TurnMessage)
  | termination
  | other (ty : String)
deriving DecidableEq

/-- Events emitted by the service towards its owner. -/
inductive ServiceEvent where
  | transcription (chunk : StreamingTranscriptionChunk)
  | connected
  | disconnected
  | errorEvent (message : String)
deriving DecidableEq

/-- handleStreamingMessage (lines 124-144): Begin marks the session started,
Turn defers to handleTurnMessage, Termination clears isConnected and emits
disconnected, unknown types are only logged. -/
def handleStreamingMessage (st : ServiceState) (pm : ProviderMessage) (now : Nat) :
    ServiceState × List ServiceEvent :=
  match pm with
  | .beginMsg _ => ({ st with sessionStarted := true }, [])
  | .turn m =>
    let r := handleTurnMessage st m now
    (r.1, r.2.map ServiceEvent.transcription)
  | .termination => ({ st with isConnected := false }, [ServiceEvent.disconnected])
  | .other _ => (st, [])

/-- sendAudioChunk (lines 222-235): the guard drops the buffer with a warning
when the socket is absent, not connected, or the session has not begun; the
result is the binary frame written to the provider socket, if any. -/
def sendAudioChunk (st : ServiceState) (audioBuffer : List Nat) : Option (List Nat) :=
  if !st.hasWebsocket || !st.isConnected || !st.sessionStarted then none
  else some audioBuffer

/-! ### Connection establishment (startRealTimeTranscription)

The promise in startRealTimeTranscription (lines 72-117) settles on the
first of: the transport open event (resolve true), a transport error event
(reject), or the 10-second timer, which rejects with the timeout error when
isConnected is still false.  Only the open handler sets isConnected, so if
neither open nor error occurred before the 10000 ms mark the timer rejects.
The trace lists the low-level socket events in chronological order, each
with its time in milliseconds since connect was called. -/

inductive WsEvent where
  | openEvent
  | errorEvent
  | closeEvent
  | messageEvent (pm : ProviderMessage)
deriving DecidableEq

inductive ConnectOutcome where
  | resolved
  | rejectedError
  | rejectedTimeout
deriving DecidableEq

/-- How the startRealTimeTranscription promise settles on a given
chronologically ordered event trace. -/
def connectOutcome : List (Nat × WsEvent) → ConnectOutcome
  | [] => .rejectedTimeout
  | (t, e) :: rest =>
    if t < 10000 then
      match e with
      | .openEvent => .resolved
      | .errorEvent => .rejectedError
      | _ => connectOutcome rest
    else .rejectedTimeout

/-- The service state after the message handler has processed every provider
message of the trace (the open and Begin handlers are the only writers of
isConnected and sessionStarted on this path). -/
def applyTrace (st : ServiceState) (trace : List (Nat × WsEvent)) : ServiceState :=
  trace.foldl
    (fun s te =>
      match te.2 with
      | .openEvent => { s with isConnected := true }
      | .closeEvent => { s with isConnected := false }
      | .errorEvent => { s with isConnected := false }
      | .messageEvent pm => (handleStreamingMessage s pm te.1).1)
    st

/-! ### Session manager (RecordingService over AssemblyAIStreamingService)

Embeds the RecordingSession record, the web-socket route's event handlers and
the client-command dispatch of the AssemblyAI-based RecordingService.
Messages sent over connection.send become an explicit list of ClientMsg
values; console log and warn lines become a list of strings (only their
presence matters to the claims).  Audio payloads arrive as the base64 string
of the audio_chunk command; Buffer.from(data, 'base64') is the lenient
decoder base64Decode below (invalid characters are skipped, a trailing group
of 2 or 3 symbols yields 1 or 2 bytes, as in Node). -/

/-- Outbound client-facing messages (the JSON objects passed to
connection.send, tagged by their type field). -/
inductive ClientMsg where
  | ready (sessionId : String)
  | errorMsg (message : String)
  | warningMsg (message : String)
  | infoMsg (message : String)
  | recordingStarted (timestamp : Nat)
  | recordingStopped (finalTranscript : String) (duration : Nat)
  | recordingPaused
  | recordingResumed
  | transcriptionMsg (text fullTranscript : String) (timestamp : Nat)
      (confidence : Rat) (speaker : Option String) (isFinal : Bool)
      (turnOrder : Option Nat) (endOfTurn isFormatted : Bool)
deriving DecidableEq

/-- Inbound client commands (the data.type dispatch of handleMessage). -/
inductive ClientCommand where
  | startRecordingCmd
  | stopRecordingCmd
  | audioChunkCmd (data : Option String)
  | pauseRecordingCmd
  | resumeRecordingCmd
  | forceEndOfTurnCmd
  | unknownCmd (ty : String)
deriving DecidableEq

/-- A raw frame on the client socket: either it parses to a command or
JSON.parse (or the handler) throws. -/
inductive RawClientMessage where
  | malformed
  | parsed (cmd : ClientCommand)
deriving DecidableEq

/-- The RecordingSession record (id, flags, buffered chunks, transcript,
speaker map, owned service).  The connection object itself is external. -/
structure RecordingSession where
  id : String
  isRecording : Bool
  startTime : Nat
  audioChunks : List (List Nat)
  chunkCounter : Nat
  fullTranscript : String
  speakerTranscript : List (String × List String)
  service : Option ServiceState
deriving DecidableEq

/-- The session literal created in setupWebSocketRoute (lines 76-86). -/
def initialSession (sid : String) (svc : ServiceState) : RecordingSession :=
  { id := sid
    isRecording := false
    startTime := 0
    audioChunks := []
    chunkCounter := 0
    fullTranscript := ""
    speakerTranscript := []
    service := some svc }

/-- The speaker block template literal of the transcription handler
(part of setupWebSocketRoute, lines 99-102). -/
def speakerBlock (speaker text : String) : String :=
  let speakerLetter := jsToLower (jsReplaceFirst speaker "Speaker " "")
  let speakerClass := "speaker-" ++ speakerLetter
  "<div class=\"speaker-block mb-4\">\n              <div class=\"speaker-label font-semibold "
    ++ speakerClass ++ " mb-2\">" ++ speaker
    ++ ":</div>\n              <div class=\"speaker-text text-white/90 leading-relaxed pl-4\">"
    ++ text ++ "</div>\n            </div>"

/-- speakerTranscript update: create the entry on first sight, then push. -/
def addSpeakerText : List (String × List String) → String → String →
    List (String × List String)
  | [], sp, t => [(sp, [t])]
  | p :: ps, sp, t =>
    if p.1 = sp then (p.1, p.2 ++ [t]) :: ps else p :: addSpeakerText ps sp t

/-- The transcription event handler registered on the service
(setupWebSocketRoute lines 91-146): final chunks with a speaker append an
HTML speaker block, final chunks without one append plain text, and every
chunk is relayed to the client with the current full transcript. -/
def onTranscription (s : RecordingSession) (chunk : StreamingTranscriptionChunk) :
    RecordingSession × List ClientMsg :=
  let s1 :=
    if strTruthy chunk.speaker && chunk.isFinal then
      let sp := chunk.speaker.getD ""
      let block := speakerBlock sp chunk.text
      let ft :=
        if s.fullTranscript ≠ "" then s.fullTranscript ++ "\n\n" ++ block else block
      { s with
        fullTranscript := ft
        speakerTranscript := addSpeakerText s.speakerTranscript sp chunk.text }
    else if !strTruthy chunk.speaker && chunk.isFinal then
      let ft :=
        if s.fullTranscript ≠ "" then
          s.fullTranscript ++
            (if jsIncludes s.fullTranscript "<div" then "\n\n" else " ") ++ chunk.text
        else chunk.text
      { s with fullTranscript := ft }
    else s
  (s1,
    [ClientMsg.transcriptionMsg chunk.text s1.fullTranscript chunk.timestamp
      chunk.confidence chunk.speaker chunk.isFinal chunk.turnOrder
      chunk.endOfTurn chunk.isFormatted])

/-- Dispatch of one service event through the listeners registered in
setupWebSocketRoute (lines 91-170). -/
def dispatchServiceEvent (s : RecordingSession) (ev : ServiceEvent) :
    RecordingSession × List ClientMsg :=
  match ev with
  | .transcription chunk => onTranscription s chunk
  | .errorEvent m =>
    (s, [ClientMsg.errorMsg ("AssemblyAI Universal-Streaming error: " ++ m)])
  | .disconnected => (s, [ClientMsg.warningMsg "Real-time transcription disconnected"])
  | .connected => (s, [ClientMsg.infoMsg "Real-time transcription connected"])

/-- Dispatch of a list of service events in order. -/
def dispatchServiceEvents (s : RecordingSession) : List ServiceEvent →
    RecordingSession × List ClientMsg
  | [] => (s, [])
  | ev :: evs =>
    let r := dispatchServiceEvent s ev
    let rest := dispatchServiceEvents r.1 evs
    (rest.1, r.2 ++ rest.2)

/-- Everything that runs in this process when one provider message arrives
for a session: the service message handler followed by the session's
listeners on the events it emits. -/
def deliverProviderMessage (s : RecordingSession) (pm : ProviderMessage) (now : Nat) :
    RecordingSession × List ClientMsg :=
  match s.service with
  | none => (s, [])
  | some svc =>
    let r := handleStreamingMessage svc pm now
    dispatchServiceEvents { s with service := some r.1 } r.2

/-! base64 decoding (Buffer.from(data, 'base64')). -/

/-- Value of a base64 alphabet character; characters outside the alphabet
(including padding) are skipped by the lenient Node decoder. -/
def b64Val (c : Char) : Option Nat :=
  if 'A' ≤ c ∧ c ≤ 'Z' then some (c.toNat - 65)
  else if 'a' ≤ c ∧ c ≤ 'z' then some (c.toNat - 97 + 26)
  else if '0' ≤ c ∧ c ≤ '9' then some (c.toNat - 48 + 52)
  else if c = '+' then some 62
  else if c = '/' then some 63
  else none

/-- Reassemble 6-bit groups into bytes; a trailing group of 2 or 3 symbols
contributes 1 or 2 bytes, a lone trailing symbol none. -/
def b64Bytes : List Nat → List Nat
  | a :: b :: c :: d :: rest =>
    (a * 4 + b / 16) :: (b % 16 * 16 + c / 4) :: (c % 4 * 64 + d) :: b64Bytes rest
  | [a, b, c] => [a * 4 + b / 16, b % 16 * 16 + c / 4]
  | [a, b] => [a * 4 + b / 16]
  | _ => []

/-- Buffer.from(data, 'base64'): the decoded byte list. -/
def base64Decode (s : String) : List Nat :=
  b64Bytes (s.data.filterMap b64Val)

/-! Client-command handlers (part_005 lines 205-342). -/

/-- startRecording (lines 236-249). -/
def startRecording (s : RecordingSession) (now : Nat) :
    RecordingSession × List ClientMsg :=
  ({ s with
      isRecording := true
      startTime := now
      audioChunks := []
      chunkCounter := 0
      fullTranscript := "" },
    [ClientMsg.recordingStarted now])

/-- stopRecording (lines 251-261). -/
def stopRecording (s : RecordingSession) (now : Nat) :
    RecordingSession × List ClientMsg :=
  ({ s with isRecording := false },
    [ClientMsg.recordingStopped (jsTrim s.fullTranscript) (now - s.startTime)])

/-- pauseRecording (lines 263-269). -/
def pauseRecording (s : RecordingSession) : RecordingSession × List ClientMsg :=
  ({ s with isRecording := false }, [ClientMsg.recordingPaused])

/-- resumeRecording (lines 271-277). -/
def resumeRecording (s : RecordingSession) : RecordingSession × List ClientMsg :=
  ({ s with isRecording := true }, [ClientMsg.recordingResumed])

/-- Result of handling one client command: the new session, the binary
audio frame forwarded to the provider socket (if any), the messages sent to
the client, and the console log lines. -/
structure HandleResult where
  session : RecordingSession
  forwarded : Option (List Nat)
  clientMsgs : List ClientMsg
  logs : List String
deriving DecidableEq

/-- processAudioChunk (lines 286-342): the isRecording gate, the payload
validations (each a warn-and-return), the push onto session.audioChunks, and
the forward through the service. -/
def processAudioChunk (s : RecordingSession) (audioData : Option String) :
    HandleResult :=
  if !s.isRecording then
    ⟨s, none, [], ["Session " ++ s.id ++ " not recording, ignoring audio chunk"]⟩
  else
    match audioData with
    | none => ⟨s, none, [], ["Invalid audio data for session " ++ s.id]⟩
    | some d =>
      if d = "" then ⟨s, none, [], ["Invalid audio data for session " ++ s.id]⟩
      else
        let audioBuffer := base64Decode d
        if audioBuffer.length = 0 then
          ⟨s, none, [], ["Empty audio buffer for session " ++ s.id ++ ", skipping"]⟩
        else if audioBuffer.length % 2 ≠ 0 then
          ⟨s, none, [],
            ["Invalid PCM_S16LE audio buffer for session " ++ s.id]⟩
        else
          let s1 := { s with
            audioChunks := s.audioChunks ++ [audioBuffer]
            chunkCounter := s.chunkCounter + 1 }
          match s.service with
          | some svc =>
            ⟨s1, sendAudioChunk svc audioBuffer, [],
              ["Received audio chunk for session " ++ s.id]⟩
          | none =>
            ⟨s1, none, [ClientMsg.errorMsg "Transcription service not available"],
              ["No AssemblyAI service available for session " ++ s.id]⟩

/-- handleMessage (lines 205-234): dispatch on data.type. -/
def handleMessage (s : RecordingSession) (cmd : ClientCommand) (now : Nat) :
    HandleResult :=
  match cmd with
  | .startRecordingCmd =>
    let r := startRecording s now
    ⟨r.1, none, r.2, []⟩
  | .stopRecordingCmd =>
    let r := stopRecording s now
    ⟨r.1, none, r.2, []⟩
  | .audioChunkCmd d => processAudioChunk s d
  | .pauseRecordingCmd =>
    let r := pauseRecording s
    ⟨r.1, none, r.2, []⟩
  | .resumeRecordingCmd =>
    let r := resumeRecording s
    ⟨r.1, none, r.2, []⟩
  | .forceEndOfTurnCmd => ⟨s, none, [], ["Forced end of turn for session: " ++ s.id]⟩
  | .unknownCmd ty => ⟨s, none, [], ["Unknown message type: " ++ ty]⟩

/-- The connection.on('message') handler (lines 173-184): a frame that does
not parse is answered with the structured Invalid message format error and
logged; otherwise handleMessage runs. -/
def onClientMessage (s : RecordingSession) (raw : RawClientMessage) (now : Nat) :
    HandleResult :=
  match raw with
  | .malformed =>
    ⟨s, none, [ClientMsg.errorMsg "Invalid message format"],
      ["Error handling message"]⟩
  | .parsed cmd => handleMessage s cmd now

/-! The session registry (the sessions map of RecordingService). -/

/-- endSession (lines 344-353): stop the provider service and delete the
session from the registry; only the connection close handler calls it. -/
def endSession (reg : List (String × RecordingSession)) (sid : String) :
    List (String × RecordingSession) :=
  reg.filter (fun p => p.1 ≠ sid)

/-- A provider message arriving for a registered session mutates that
session in place; no registry entry is added or removed on this path. -/
def deliverToRegistry (reg : List (String × RecordingSession)) (sid : String)
    (pm : ProviderMessage) (now : Nat) :
    List (String × RecordingSession) × List ClientMsg :=
  (reg.map (fun p => if p.1 = sid then (p.1, (deliverProviderMessage p.2 pm now).1) else p),
    match reg.find? (fun p => p.1 == sid) with
    | some p => (deliverProviderMessage p.2 pm now).2
    | none => [])

/-! ### Concrete fixtures

Closed states used by witnesses and counterexamples: a service that has
completed its handshake, a freshly constructed service, a recording session
wired to the ready service, and a final Turn message for turn 0 with a
single speaker-tagged word. -/

/-- A provider client that is connected and has received Begin. -/
def svcReady : ServiceState :=
  { hasWebsocket := true
    isConnected := true
    sessionStarted := true
    speakerMapping := []
    currentTurnText := "" }

/-- A provider client right after the socket object is created. -/
def svcInit : ServiceState :=
  { hasWebsocket := true
    isConnected := false
    sessionStarted := false
    speakerMapping := []
    currentTurnText := "" }

/-- A session that has sent start_recording, on the ready service. -/
def sessActive : RecordingSession :=
  { id := "s1"
    isRecording := true
    startTime := 0
    audioChunks := []
    chunkCounter := 0
    fullTranscript := ""
    speakerTranscript := []
    service := some svcReady }

/-- A final Turn message for turn 0 whose single word carries speaker id 1. -/
def turnFinal0 : TurnMessage :=
  { transcript := some "hello there"
    words := [{ speaker := some "1", confidence := none }]
    end_of_turn := some true
    turn_order := some 0
    turn_is_formatted := some false }

/-- A final Turn message with a count tie between speakers 2 and 1, speaker
2 sighted first. -/
def turnTie : TurnMessage :=
  { transcript := some "good morning"
    words := [{ speaker := some "2", confidence := none },
              { speaker := some "1", confidence := none },
              { speaker := some "2", confidence := none },
              { speaker := some "1", confidence := none }]
    end_of_turn := some true
    turn_order := some 2
    turn_is_formatted := none }

/-! ### Lemmas -/

/-- A nonempty string has positive length. -/
theorem strLengthPos (s : String) (h : s ≠ "") : 0 < s.length := by
  cases s with
  | mk data =>
    cases data with
    | nil => exact absurd rfl h
    | cons c cs => simp [String.length]

theorem natDigits_lt (n : Nat) (h : n < 10) : natDigits n = [Nat.digitChar n] := by
  unfold natDigits
  simp [h]

theorem natDigits_ge (n : Nat) (h : ¬ n < 10) :
    natDigits n = natDigits (n / 10) ++ [Nat.digitChar (n % 10)] := by
  conv_lhs => unfold natDigits
  simp [h]

theorem toDigitsCore_eq_natDigits :
    ∀ (fuel n : Nat) (ds : List Char), n < fuel →
      Nat.toDigitsCore 10 fuel n ds = natDigits n ++ ds := by
  intro fuel
  induction fuel with
  | zero => intro n ds h; omega
  | succ f ih =>
    intro n ds h
    show (if n / 10 = 0 then Nat.digitChar (n % 10) :: ds
          else Nat.toDigitsCore 10 f (n / 10) (Nat.digitChar (n % 10) :: ds)) =
        natDigits n ++ ds
    by_cases h10 : n < 10
    · have hz : n / 10 = 0 := Nat.div_eq_of_lt h10
      have hm : n % 10 = n := Nat.mod_eq_of_lt h10
      simp [hz, hm, natDigits_lt n h10]
    · have hz : ¬ n / 10 = 0 := by
        intro hc
        exact h10 (by omega)
      have hlt : n / 10 < f := by
        have h1 : n / 10 < n := Nat.div_lt_self (by omega) (by omega)
        omega
      rw [if_neg hz, ih (n / 10) (Nat.digitChar (n % 10) :: ds) hlt,
        natDigits_ge n h10, List.append_assoc]
      rfl

theorem repr_eq_natDigits (n : Nat) : Nat.repr n = ⟨natDigits n⟩ := by
  show (Nat.toDigits 10 n).asString = _
  rw [Nat.toDigits, toDigitsCore_eq_natDigits (n + 1) n [] (Nat.lt_succ_self n)]
  simp [List.asString]

theorem digitVal_digitChar (d : Nat) (h : d < 10) :
    digitVal (Nat.digitChar d) = d := by
  interval_cases d <;> decide

theorem decodeDigits_append (cs : List Char) (c : Char) :
    decodeDigits (cs ++ [c]) = 10 * decodeDigits cs + digitVal c := by
  simp [decodeDigits]

theorem decodeDigits_natDigits (n : Nat) : decodeDigits (natDigits n) = n := by
  induction n using Nat.strong_induction_on with
  | _ n ih =>
    by_cases h : n < 10
    · rw [natDigits_lt n h]
      simpa [decodeDigits] using digitVal_digitChar n h
    · rw [natDigits_ge n h, decodeDigits_append,
        ih (n / 10) (Nat.div_lt_self (by omega) (by omega)),
        digitVal_digitChar (n % 10) (Nat.mod_lt n (by omega))]
      omega

theorem natRepr_injective : Function.Injective Nat.repr := by
  intro a b h
  rw [repr_eq_natDigits, repr_eq_natDigits] at h
  have hd : natDigits a = natDigits b := congrArg String.data h
  calc a = decodeDigits (natDigits a) := (decodeDigits_natDigits a).symm
    _ = decodeDigits (natDigits b) := by rw [hd]
    _ = b := decodeDigits_natDigits b

theorem keysNew_not_seen :
    ∀ (sp seen : List String) (k : String), k ∈ keysNew sp seen → k ∉ seen := by
  intro sp
  induction sp with
  | nil => intro seen k h; simp [keysNew] at h
  | cons x xs ih =>
    intro seen k h
    by_cases hx : x ∈ seen
    · exact ih seen k (by simpa [keysNew, hx] using h)
    · simp only [keysNew, if_neg hx, List.mem_cons] at h
      rcases h with h | h
      · subst h; exact hx
      · have := ih (seen ++ [x]) k h
        intro hk
        exact this (by simp [hk])

theorem keysNew_mem :
    ∀ (sp seen : List String) (k : String),
      k ∈ keysNew sp seen ↔ k ∈ sp ∧ k ∉ seen := by
  intro sp
  induction sp with
  | nil => intro seen k; simp [keysNew]
  | cons x xs ih =>
    intro seen k
    by_cases hx : x ∈ seen
    · simp only [keysNew, if_pos hx, ih, List.mem_cons]
      constructor
      · rintro ⟨h1, h2⟩; exact ⟨Or.inr h1, h2⟩
      · rintro ⟨h1 | h1, h2⟩
        · subst h1; exact absurd hx h2
        · exact ⟨h1, h2⟩
    · simp only [keysNew, if_neg hx, List.mem_cons, ih]
      constructor
      · rintro (h | ⟨h1, h2⟩)
        · subst h; exact ⟨Or.inl rfl, hx⟩
        · refine ⟨Or.inr h1, fun hk => h2 (by simp [hk])⟩
      · rintro ⟨h1 | h1, h2⟩
        · subst h1; exact Or.inl rfl
        · by_cases hk : k = x
          · subst hk; exact Or.inl rfl
          · exact Or.inr ⟨h1, by simp [h2, hk]⟩

theorem keysNew_nodup :
    ∀ (sp seen : List String), (keysNew sp seen).Nodup := by
  intro sp
  induction sp with
  | nil => intro seen; simp [keysNew]
  | cons x xs ih =>
    intro seen
    by_cases hx : x ∈ seen
    · simpa [keysNew, hx] using ih seen
    · simp only [keysNew, if_neg hx, List.nodup_cons]
      refine ⟨fun hmem => ?_, ih (seen ++ [x])⟩
      exact keysNew_not_seen xs (seen ++ [x]) x hmem (by simp)

theorem keysNew_order :
    ∀ (sp seen pre post : List String) (a b : String),
      keysNew sp seen = pre ++ a :: post → b ∈ post →
      firstIdx sp a < firstIdx sp b := by
  intro sp
  induction sp with
  | nil =>
    intro seen pre post a b h hb
    simp only [keysNew] at h
    exact absurd h.symm (List.append_ne_nil_of_right_ne_nil pre (by simp))
  | cons x xs ih =>
    intro seen pre post a b h hb
    by_cases hx : x ∈ seen
    · rw [keysNew, if_pos hx] at h
      have ha : a ∈ keysNew xs seen := by rw [h]; simp
      have hbm : b ∈ keysNew xs seen := by rw [h]; simp [hb]
      have hxa : ¬ x = a := fun hc => keysNew_not_seen xs seen a ha (hc ▸ hx)
      have hxb : ¬ x = b := fun hc => keysNew_not_seen xs seen b hbm (hc ▸ hx)
      have hlt := ih seen pre post a b h hb
      simp only [firstIdx]
      rw [if_neg hxa, if_neg hxb]
      omega
    · rw [keysNew, if_neg hx] at h
      cases pre with
      | nil =>
        simp only [List.nil_append, List.cons.injEq] at h
        obtain ⟨hax, hpost⟩ := h
        have hbm : b ∈ keysNew xs (seen ++ [x]) := by rw [hpost]; exact hb
        have hxb : ¬ x = b := by
          intro hc
          exact keysNew_not_seen xs (seen ++ [x]) b hbm (by simp [hc])
        simp only [firstIdx]
        rw [if_pos hax, if_neg hxb]
        omega
      | cons p ps =>
        simp only [List.cons_append, List.cons.injEq] at h
        obtain ⟨hpx, hrest⟩ := h
        have ha : a ∈ keysNew xs (seen ++ [x]) := by rw [hrest]; simp
        have hbm : b ∈ keysNew xs (seen ++ [x]) := by rw [hrest]; simp [hb]
        have hxa : ¬ x = a := by
          intro hc
          exact keysNew_not_seen xs (seen ++ [x]) a ha (by simp [hc])
        have hxb : ¬ x = b := by
          intro hc
          exact keysNew_not_seen xs (seen ++ [x]) b hbm (by simp [hc])
        have hlt := ih (seen ++ [x]) ps post a b hrest hb
        simp only [firstIdx]
        rw [if_neg hxa, if_neg hxb]
        omega

theorem firstIdx_lt_length :
    ∀ (l : List String) (k : String), k ∈ l → firstIdx l k < l.length := by
  intro l
  induction l with
  | nil => intro k h; simp at h
  | cons x xs ih =>
    intro k h
    by_cases hx : x = k
    · simp [firstIdx, hx]
    · rcases List.mem_cons.mp h with h1 | h1
      · exact absurd h1.symm hx
      · have := ih k h1
        simp only [firstIdx, if_neg hx, List.length_cons]
        omega

theorem speakerLabelFor_lt (i : Nat) (h : i < 16) :
    (speakerLabelFor i).length = 1 := by
  interval_cases i <;> decide

theorem speakerLabelFor_ge (i : Nat) (h : 16 ≤ i) :
    speakerLabelFor i = "Speaker" ++ Nat.repr (i + 1) := by
  have hnone : speakerLetters.get? i = none := by
    apply List.get?_eq_none.mpr
    simpa [speakerLetters] using h
  unfold speakerLabelFor
  rw [hnone]

theorem natDigits_ne_nil (n : Nat) : natDigits n ≠ [] := by
  by_cases h : n < 10
  · rw [natDigits_lt n h]; simp
  · rw [natDigits_ge n h]; simp

theorem repr_length_pos (n : Nat) : 0 < (Nat.repr n).length := by
  rw [repr_eq_natDigits]
  show 0 < (natDigits n).length
  exact List.length_pos.mpr (natDigits_ne_nil n)

theorem speakerLabelFor_injective : Function.Injective speakerLabelFor := by
  intro i j h
  by_cases hi : i < 16 <;> by_cases hj : j < 16
  · have hfin : ∀ a : Fin 16, ∀ b : Fin 16,
        speakerLabelFor a.1 = speakerLabelFor b.1 → a.1 = b.1 := by decide
    exact hfin ⟨i, hi⟩ ⟨j, hj⟩ h
  · exfalso
    have h1 := speakerLabelFor_lt i hi
    have h2 : (speakerLabelFor j).length = 7 + (Nat.repr (j + 1)).length := by
      rw [speakerLabelFor_ge j (by omega), String.length_append]
      have h7 : ("Speaker" : String).length = 7 := rfl
      rw [h7]
    have := repr_length_pos (j + 1)
    rw [h] at h1
    omega
  · exfalso
    have h1 := speakerLabelFor_lt j hj
    have h2 : (speakerLabelFor i).length = 7 + (Nat.repr (i + 1)).length := by
      rw [speakerLabelFor_ge i (by omega), String.length_append]
      have h7 : ("Speaker" : String).length = 7 := rfl
      rw [h7]
    have := repr_length_pos (i + 1)
    rw [h] at h2
    omega
  · rw [speakerLabelFor_ge i (by omega), speakerLabelFor_ge j (by omega)] at h
    have hdata : ("Speaker").data ++ (Nat.repr (i + 1)).data =
        ("Speaker").data ++ (Nat.repr (j + 1)).data := by
      have := congrArg String.data h
      simpa [String.data_append] using this
    have hrepr : Nat.repr (i + 1) = Nat.repr (j + 1) := by
      apply String.ext
      exact List.append_cancel_left hdata
    have := natRepr_injective hrepr
    omega

theorem enumLabeledFrom_length (i : Nat) (ks : List String) :
    (enumLabeledFrom i ks).length = ks.length := by
  induction ks generalizing i with
  | nil => simp [enumLabeledFrom]
  | cons k ks ih => simp [enumLabeledFrom, ih]

theorem enumLabeledFrom_append (i : Nat) (ks : List String) (k : String) :
    enumLabeledFrom i (ks ++ [k]) =
      enumLabeledFrom i ks ++ [(k, speakerLabelFor (i + ks.length))] := by
  induction ks generalizing i with
  | nil => simp [enumLabeledFrom]
  | cons x xs ih =>
    calc enumLabeledFrom i ((x :: xs) ++ [k])
        = (x, speakerLabelFor i) :: enumLabeledFrom (i + 1) (xs ++ [k]) := rfl
      _ = (x, speakerLabelFor i) ::
            (enumLabeledFrom (i + 1) xs ++ [(k, speakerLabelFor (i + 1 + xs.length))]) := by
          rw [ih (i + 1)]
      _ = enumLabeledFrom i (x :: xs) ++ [(k, speakerLabelFor (i + (x :: xs).length))] := by
          simp only [enumLabeledFrom, List.cons_append, List.length_cons]
          have harith : i + 1 + xs.length = i + (xs.length + 1) := by omega
          rw [harith]

theorem find_enumLabeledFrom (ks : List String) :
    ∀ (i : Nat) (k : String),
      (enumLabeledFrom i ks).find? (fun p => p.1 == k) =
        if k ∈ ks then some (k, speakerLabelFor (i + firstIdx ks k)) else none := by
  induction ks with
  | nil => intro i k; simp [enumLabeledFrom]
  | cons x xs ih =>
    intro i k
    by_cases hx : x = k
    · subst hx
      simp [enumLabeledFrom, List.find?, firstIdx]
    · have hbeq : (x == k) = false := by
        simpa using hx
      simp only [enumLabeledFrom, List.find?, hbeq, ih (i + 1) k, List.mem_cons]
      by_cases hk : k ∈ xs
      · rw [if_pos hk, if_pos (Or.inr hk)]
        simp only [firstIdx]
        rw [if_neg hx]
        have : i + 1 + firstIdx xs k = i + (firstIdx xs k + 1) := by omega
        rw [this]
      · rw [if_neg hk, if_neg ?_]
        rintro (h | h)
        · exact hx h.symm
        · exact hk h

/-- Resolving a key against a canonical map: hit returns the stored label
and leaves the map unchanged; miss appends the next label. -/
theorem mapSpeakerToLetter_enum (ks : List String) (k : String) :
    mapSpeakerToLetter (enumLabeledFrom 0 ks) k =
      if k ∈ ks then (enumLabeledFrom 0 ks, speakerLabelFor (firstIdx ks k))
      else (enumLabeledFrom 0 (ks ++ [k]), speakerLabelFor ks.length) := by
  by_cases hk : k ∈ ks
  · rw [if_pos hk]
    unfold mapSpeakerToLetter
    rw [find_enumLabeledFrom ks 0 k, if_pos hk]
    simp
  · rw [if_neg hk]
    unfold mapSpeakerToLetter
    rw [find_enumLabeledFrom ks 0 k, if_neg hk]
    rw [enumLabeledFrom_append, enumLabeledFrom_length]
    simp

/-- The session map after any history of resolutions is canonical: its keys
are the distinct ids in first-sighting order, labelled in sequence. -/
theorem sessionMap_spec (ids : List String) :
    sessionMap ids = enumLabeledFrom 0 (keysNew ids []) := by
  suffices h : ∀ (ids ks : List String),
      ids.foldl (fun m i => (mapSpeakerToLetter m i).1) (enumLabeledFrom 0 ks) =
        enumLabeledFrom 0 (ks ++ keysNew ids ks) by
    have := h ids []
    simpa [sessionMap, enumLabeledFrom] using this
  intro ids
  induction ids with
  | nil => intro ks; simp [keysNew]
  | cons x xs ih =>
    intro ks
    by_cases hx : x ∈ ks
    · simp only [List.foldl_cons, mapSpeakerToLetter_enum, if_pos hx]
      rw [ih ks, keysNew, if_pos hx]
    · simp only [List.foldl_cons, mapSpeakerToLetter_enum, if_neg hx]
      rw [ih (ks ++ [x]), keysNew, if_neg hx]
      rw [List.append_assoc]
      rfl

theorem bump_keys (l : List (String × Nat)) (k : String) :
    (bump l k).map Prod.fst =
      if k ∈ l.map Prod.fst then l.map Prod.fst else l.map Prod.fst ++ [k] := by
  induction l with
  | nil => simp [bump]
  | cons p ps ih =>
    by_cases hp : p.1 = k
    · simp [bump, hp]
    · simp only [bump, if_neg hp, List.map_cons, ih, List.mem_cons]
      by_cases hk : k ∈ ps.map Prod.fst
      · rw [if_pos hk, if_pos (Or.inr hk)]
      · rw [if_neg hk, if_neg ?_]
        · simp
        · rintro (h | h)
          · exact hp h.symm
          · exact hk h

theorem bump_lookup (l : List (String × Nat)) (k k2 : String) :
    lookupCount (bump l k) k2 = lookupCount l k2 + (if k2 = k then 1 else 0) := by
  induction l with
  | nil =>
    by_cases h : k = k2
    · subst h; simp [bump, lookupCount, List.find?]
    · have hbeq : (k == k2) = false := by simpa using h
      simp only [bump, lookupCount, List.find?, hbeq, List.find?_nil]
      rw [if_neg (fun hc => h hc.symm)]
  | cons p ps ih =>
    by_cases hp : p.1 = k
    · by_cases h2 : p.1 = k2
      · have hk2 : k2 = k := by rw [← h2, hp]
        have hbeq : (p.1 == k2) = true := by simpa using h2
        rw [bump, if_pos hp]
        have hl : lookupCount ((p.1, p.2 + 1) :: ps) k2 = p.2 + 1 := by
          simp [lookupCount, List.find?, hbeq]
        have hr : lookupCount (p :: ps) k2 = p.2 := by
          simp [lookupCount, List.find?, hbeq]
        rw [hl, hr, if_pos hk2]
      · have hbeq : (p.1 == k2) = false := by simpa using h2
        have hk2 : ¬ k2 = k := fun hc => h2 (by rw [hp, hc])
        rw [bump, if_pos hp]
        have hl : lookupCount ((p.1, p.2 + 1) :: ps) k2 = lookupCount ps k2 := by
          simp [lookupCount, List.find?, hbeq]
        have hr : lookupCount (p :: ps) k2 = lookupCount ps k2 := by
          simp [lookupCount, List.find?, hbeq]
        rw [hl, hr, if_neg hk2]
        omega
    · by_cases h2 : p.1 = k2
      · have hbeq : (p.1 == k2) = true := by simpa using h2
        have hk2 : ¬ k2 = k := fun hc => hp (by rw [← hc, h2])
        rw [bump, if_neg hp]
        have hl : lookupCount (p :: bump ps k) k2 = p.2 := by
          simp [lookupCount, List.find?, hbeq]
        have hr : lookupCount (p :: ps) k2 = p.2 := by
          simp [lookupCount, List.find?, hbeq]
        rw [hl, hr, if_neg hk2]
        omega
      · have hbeq : (p.1 == k2) = false := by simpa using h2
        have hstep : lookupCount (p :: bump ps k) k2 = lookupCount (bump ps k) k2 := by
          simp [lookupCount, List.find?, hbeq]
        have hbase : lookupCount (p :: ps) k2 = lookupCount ps k2 := by
          simp [lookupCount, List.find?, hbeq]
        rw [bump, if_neg hp, hstep, hbase, ih]

/-- The counts map built over a word-speaker sequence: keys in
first-occurrence order, values the occurrence counts. -/
theorem counts_fold_spec (sp : List String) :
    ∀ l : List (String × Nat),
      ((sp.foldl bump l).map Prod.fst = l.map Prod.fst ++ keysNew sp (l.map Prod.fst)) ∧
      (∀ k, lookupCount (sp.foldl bump l) k = lookupCount l k + sp.count k) := by
  induction sp with
  | nil => intro l; simp [keysNew]
  | cons x xs ih =>
    intro l
    have hkeys := bump_keys l x
    constructor
    · by_cases hx : x ∈ l.map Prod.fst
      · rw [List.foldl_cons]
        rw [(ih (bump l x)).1, hkeys, if_pos hx, keysNew, if_pos hx]
      · rw [List.foldl_cons]
        rw [(ih (bump l x)).1, hkeys, if_neg hx, keysNew, if_neg hx,
          List.append_assoc]
        rfl
    · intro k
      rw [List.foldl_cons, (ih (bump l x)).2 k, bump_lookup]
      have hcnt : (x :: xs).count k = xs.count k + (if k = x then 1 else 0) := by
        rw [List.count_cons]
        by_cases h : k = x
        · subst h; simp
        · have : (x == k) = false := by simpa using fun hc => h hc.symm
          simp [this, h]
      omega

theorem mem_lookup (l : List (String × Nat)) (q : String × Nat)
    (hnd : (l.map Prod.fst).Nodup) (hq : q ∈ l) : lookupCount l q.1 = q.2 := by
  induction l with
  | nil => simp at hq
  | cons p ps ih =>
    rcases List.mem_cons.mp hq with h | h
    · subst h
      simp [lookupCount, List.find?]
    · have hp1 : ¬ p.1 = q.1 := by
        intro hc
        have : q.1 ∈ ps.map Prod.fst := List.mem_map_of_mem Prod.fst h
        rw [List.map_cons, List.nodup_cons] at hnd
        exact hnd.1 (hc ▸ this)
      have hbeq : (p.1 == q.1) = false := by simpa using hp1
      have := ih (by rw [List.map_cons, List.nodup_cons] at hnd; exact hnd.2) h
      simpa [lookupCount, List.find?, hbeq] using this

theorem foldlBest_spec (ps : List (String × Nat)) :
    ∀ b : String × Nat,
      (ps.foldl (fun best q => if q.2 > best.2 then q else best) b = b ∧
        ∀ q ∈ ps, q.2 ≤ b.2) ∨
      (∃ pre post,
        ps = pre ++ (ps.foldl (fun best q => if q.2 > best.2 then q else best) b) :: post ∧
        b.2 < (ps.foldl (fun best q => if q.2 > best.2 then q else best) b).2 ∧
        (∀ q ∈ pre, q.2 < (ps.foldl (fun best q => if q.2 > best.2 then q else best) b).2) ∧
        (∀ q ∈ post, q.2 ≤ (ps.foldl (fun best q => if q.2 > best.2 then q else best) b).2)) := by
  induction ps with
  | nil => intro b; left; simp
  | cons p ps ih =>
    intro b
    by_cases hp : p.2 > b.2
    · have hfold : (p :: ps).foldl (fun best q => if q.2 > best.2 then q else best) b =
          ps.foldl (fun best q => if q.2 > best.2 then q else best) p := by
        simp [hp]
      right
      rw [hfold]
      rcases ih p with ⟨heq, hall⟩ | ⟨pre, post, hsplit, hlt, hpre, hpost⟩
      · rw [heq]
        exact ⟨[], ps, by simp, hp, by simp, hall⟩
      · refine ⟨p :: pre, post, ?_, by omega, ?_, hpost⟩
        · rw [List.cons_append]
          exact congrArg (List.cons p) hsplit
        · intro q hq
          rcases List.mem_cons.mp hq with h | h
          · subst h; exact hlt
          · exact hpre q h
    · have hfold : (p :: ps).foldl (fun best q => if q.2 > best.2 then q else best) b =
          ps.foldl (fun best q => if q.2 > best.2 then q else best) b := by
        simp [hp]
      rcases ih b with ⟨heq, hall⟩ | ⟨pre, post, hsplit, hlt, hpre, hpost⟩
      · left
        rw [hfold, heq]
        refine ⟨rfl, ?_⟩
        intro q hq
        rcases List.mem_cons.mp hq with h | h
        · subst h; omega
        · exact hall q h
      · right
        rw [hfold]
        refine ⟨p :: pre, post, ?_, hlt, ?_, hpost⟩
        · rw [List.cons_append]
          exact congrArg (List.cons p) hsplit
        · intro q hq
          rcases List.mem_cons.mp hq with h | h
          · subst h; omega
          · exact hpre q h

/-- firstMax of a nonempty list splits it around a first maximal entry. -/
theorem firstMax_spec (c : String × Nat) (rest : List (String × Nat)) :
    ∃ r pre post, firstMax (c :: rest) = some r ∧
      c :: rest = pre ++ r :: post ∧
      (∀ q ∈ pre, q.2 < r.2) ∧ (∀ q ∈ post, q.2 ≤ r.2) := by
  rcases foldlBest_spec rest c with ⟨heq, hall⟩ | ⟨pre, post, hsplit, hlt, hpre, hpost⟩
  · refine ⟨c, [], rest, ?_, by simp [heq] , by simp, ?_⟩
    · simp [firstMax, heq]
    · intro q hq
      exact hall q hq
  · refine ⟨rest.foldl (fun best q => if q.2 > best.2 then q else best) c,
      c :: pre, post, by simp [firstMax], by simpa using hsplit, ?_, hpost⟩
    intro q hq
    rcases List.mem_cons.mp hq with h | h
    · subst h; exact hlt
    · exact hpre q h

/-- First-occurrence keys of a concatenation: the keys of the first part,
then the keys of the second part that are new relative to both. -/
theorem keysNew_append :
    ∀ (l1 l2 seen : List String),
      keysNew (l1 ++ l2) seen = keysNew l1 seen ++ keysNew l2 (seen ++ keysNew l1 seen) := by
  intro l1
  induction l1 with
  | nil => intro l2 seen; simp [keysNew]
  | cons x xs ih =>
    intro l2 seen
    by_cases hx : x ∈ seen
    · simp only [List.cons_append, keysNew, if_pos hx]
      exact ih l2 seen
    · simp only [List.cons_append, keysNew, if_neg hx, List.append_eq]
      rw [ih l2 (seen ++ [x])]
      simp [List.append_assoc]

/-- The first-occurrence index of a member is unchanged by appending. -/
theorem firstIdx_append_mem :
    ∀ (l ext : List String) (k : String), k ∈ l →
      firstIdx (l ++ ext) k = firstIdx l k := by
  intro l
  induction l with
  | nil => intro ext k h; simp at h
  | cons x xs ih =>
    intro ext k h
    by_cases hx : x = k
    · simp [firstIdx, hx]
    · have hk : k ∈ xs := by
        rcases List.mem_cons.mp h with h1 | h1
        · exact absurd h1.symm hx
        · exact h1
      simp only [List.cons_append, firstIdx, if_neg hx, List.append_eq]
      rw [ih ext k hk]

/-- Two members of a list with the same first-occurrence index coincide. -/
theorem firstIdx_inj_mem :
    ∀ (l : List String) (a b : String), a ∈ l → b ∈ l →
      firstIdx l a = firstIdx l b → a = b := by
  intro l
  induction l with
  | nil => intro a b ha; simp at ha
  | cons x xs ih =>
    intro a b ha hb h
    by_cases hxa : x = a <;> by_cases hxb : x = b
    · rw [← hxa, ← hxb]
    · rw [firstIdx, firstIdx, if_pos hxa, if_neg hxb] at h
      omega
    · rw [firstIdx, firstIdx, if_neg hxa, if_pos hxb] at h
      omega
    · have ha2 : a ∈ xs := by
        rcases List.mem_cons.mp ha with h1 | h1
        · exact absurd h1.symm hxa
        · exact h1
      have hb2 : b ∈ xs := by
        rcases List.mem_cons.mp hb with h1 | h1
        · exact absurd h1.symm hxb
        · exact h1
      rw [firstIdx, firstIdx, if_neg hxa, if_neg hxb] at h
      exact ih a b ha2 hb2 (by omega)

/-- Audio is never forwarded while the owned provider client is not
connected: every branch of processAudioChunk then yields no outbound frame
(the send guard in sendAudioChunk drops it). -/
theorem processAudioChunk_not_connected (s : RecordingSession) (svc : ServiceState)
    (d : Option String) (hs : s.service = some svc) (hc : svc.isConnected = false) :
    (processAudioChunk s d).forwarded = none := by
  unfold processAudioChunk
  by_cases hrec : s.isRecording = true
  · cases d with
    | none => simp [hrec]
    | some dd =>
      by_cases hd : dd = ""
      · simp [hrec, hd]
      · by_cases h0 : (base64Decode dd).length = 0
        · simp [hrec, hd, h0]
        · by_cases h2 : (base64Decode dd).length % 2 = 0
          · simp [hrec, hd, h0, h2, hs, sendAudioChunk, hc]
          · simp [hrec, hd, h0, h2]
  · have hrec2 : s.isRecording = false := by
      cases hr : s.isRecording
      · rfl
      · exact absurd hr hrec
    simp [hrec2]

/-- On a Turn message that passes the transcript guard, handleTurnMessage
emits exactly one chunk carrying the message transcript and finality flag. -/
theorem handleTurnMessage_final (st : ServiceState) (msg : TurnMessage) (now : Nat)
    (ht : transcriptBad msg.transcript = false) :
    ∃ st2 chunk, handleTurnMessage st msg now = (st2, [chunk]) ∧
      chunk.text = msg.transcript.getD "" ∧
      chunk.isFinal = msg.end_of_turn.getD false := by
  unfold handleTurnMessage
  simp only [ht, Bool.false_eq_true, if_false]
  exact ⟨_, _, rfl, rfl, rfl⟩

/-- A transcript that passes the guard is a nonempty string. -/
theorem transcript_nonempty_of_ok (msg : TurnMessage)
    (ht : transcriptBad msg.transcript = false) : msg.transcript.getD "" ≠ "" := by
  unfold transcriptBad at ht
  cases h : msg.transcript with
  | none => rw [h] at ht; simp at ht
  | some t =>
    rw [h] at ht
    simp only [Bool.or_eq_false_iff, decide_eq_false_iff_not] at ht
    simpa using ht.1

/-- The speaker block template always renders a nonempty string. -/
theorem speakerBlock_length_pos (sp t : String) : 0 < (speakerBlock sp t).length := by
  unfold speakerBlock
  simp only [String.length_append]
  have h1 : 0 <
      ("<div class=\"speaker-block mb-4\">\n              <div class=\"speaker-label font-semibold "
        : String).length := by decide
  omega

/-- Every final chunk with nonempty text strictly lengthens the session's
full transcript when it is dispatched. -/
theorem onTranscription_final_grows (s : RecordingSession)
    (chunk : StreamingTranscriptionChunk)
    (hfin : chunk.isFinal = true) (htext : chunk.text ≠ "") :
    s.fullTranscript.length < (onTranscription s chunk).1.fullTranscript.length := by
  unfold onTranscription
  have htpos : 0 < chunk.text.length := strLengthPos chunk.text htext
  by_cases hsp : strTruthy chunk.speaker = true
  · simp only [hsp, hfin, Bool.and_self, if_pos]
    have hb := speakerBlock_length_pos (chunk.speaker.getD "") chunk.text
    by_cases hft : s.fullTranscript = ""
    · simp [hft]
      omega
    · simp only [ne_eq, hft, not_false_eq_true, if_pos, String.length_append]
      omega
  · have hsp2 : strTruthy chunk.speaker = false := by
      cases h : strTruthy chunk.speaker
      · rfl
      · exact absurd h hsp
    simp only [hsp2, hfin, Bool.false_and, Bool.not_false, Bool.true_and,
      Bool.false_eq_true, if_false, if_pos]
    by_cases hft : s.fullTranscript = ""
    · simp [hft]
      omega
    · simp only [ne_eq, hft, not_false_eq_true, if_pos, String.length_append]
      omega

/-! ### Claims -/

/-- C9: every audio frame whose decoded byte length is odd or zero is
rejected: it is not forwarded to the provider, the session is not terminated
(its state is unchanged), and subsequent messages are processed exactly as
they would have been before. -/
theorem C9_invalid_frame_rejected (s : RecordingSession) (d : String)
    (h : (base64Decode d).length = 0 ∨ (base64Decode d).length % 2 = 1) :
    (processAudioChunk s (some d)).session = s ∧
    (processAudioChunk s (some d)).forwarded = none ∧
    (∀ raw now, onClientMessage (processAudioChunk s (some d)).session raw now =
      onClientMessage s raw now) := by
  have key : (processAudioChunk s (some d)).session = s ∧
      (processAudioChunk s (some d)).forwarded = none := by
    unfold processAudioChunk
    by_cases hrec : s.isRecording = true
    · simp only [hrec]
      by_cases hd : d = ""
      · simp [hd]
      · rcases h with h0 | h1
        · simp [hd, h0]
        · have h0 : ¬ (base64Decode d).length = 0 := by omega
          have h2 : (base64Decode d).length % 2 ≠ 0 := by omega
          simp [hd, h0, h2]
    · have hrec2 : s.isRecording = false := by
        cases hr : s.isRecording
        · rfl
        · exact absurd hr hrec
      simp [hrec2]
  exact ⟨key.1, key.2, fun raw now => by rw [key.1]⟩

/-- C9 witness: the two-symbol payload AA decodes to a single byte, which is
rejected without touching the session of the active fixture. -/
theorem C9_witness :
    ((base64Decode "AA").length = 0 ∨ (base64Decode "AA").length % 2 = 1) ∧
    (processAudioChunk sessActive (some "AA")).session = sessActive ∧
    (processAudioChunk sessActive (some "AA")).forwarded = none :=
  ⟨Or.inr (by decide),
    (C9_invalid_frame_rejected sessActive "AA" (Or.inr (by decide))).1,
    (C9_invalid_frame_rejected sessActive "AA" (Or.inr (by decide))).2.1⟩

/-- C10: a provider Turn message whose transcript is absent, empty, or
whitespace-only produces no transcription chunk and leaves all state
unchanged, including the current-partial text and the session transcript,
even when it is marked end_of_turn. -/
theorem C10_blank_transcript_no_effect (st : ServiceState) (msg : TurnMessage) (now : Nat)
    (h : msg.transcript = none ∨ ∃ t, msg.transcript = some t ∧ jsTrim t = "") :
    handleTurnMessage st msg now = (st, []) ∧
    (∀ (s : RecordingSession) (svc : ServiceState), s.service = some svc →
      deliverProviderMessage s (ProviderMessage.turn msg) now = (s, [])) := by
  have hbad : transcriptBad msg.transcript = true := by
    rcases h with h | ⟨t, ht, htrim⟩
    · simp [transcriptBad, h]
    · simp [transcriptBad, ht, htrim]
  have h1 : ∀ st0 : ServiceState, handleTurnMessage st0 msg now = (st0, []) := by
    intro st0
    unfold handleTurnMessage
    simp [hbad]
  refine ⟨h1 st, ?_⟩
  intro s svc hs
  unfold deliverProviderMessage
  rw [hs]
  simp only [handleStreamingMessage, h1 svc, List.map_nil, dispatchServiceEvents]
  obtain ⟨sid, rec, st0, ac, cc, ft, sptr, sv⟩ := s
  simp only [RecordingSession.mk.injEq] at hs ⊢
  simp_all

/-- C10 witness: a whitespace-only final Turn for turn 1 leaves the ready
service untouched and emits nothing. -/
theorem C10_witness :
    jsTrim "  " = "" ∧
    handleTurnMessage svcReady
      { transcript := some "  ", words := [], end_of_turn := some true,
        turn_order := some 1, turn_is_formatted := none } 3 = (svcReady, []) :=
  ⟨by decide,
    (C10_blank_transcript_no_effect svcReady
      { transcript := some "  ", words := [], end_of_turn := some true,
        turn_order := some 1, turn_is_formatted := none } 3
      (Or.inr ⟨"  ", rfl, by decide⟩)).1⟩

/-- C6: audio frames that arrive before start_recording or while paused are
discarded (session unchanged, nothing forwarded, nothing sent to the
client), and resume_recording restores forwarding of subsequent valid
frames. -/
theorem C6_audio_gating :
    (∀ (sid : String) (svc : ServiceState), (initialSession sid svc).isRecording = false) ∧
    (∀ s : RecordingSession, (pauseRecording s).1.isRecording = false) ∧
    (∀ (s : RecordingSession) (d : Option String), s.isRecording = false →
      (processAudioChunk s d).session = s ∧
      (processAudioChunk s d).forwarded = none ∧
      (processAudioChunk s d).clientMsgs = []) ∧
    (∀ (s : RecordingSession) (d : String) (svc : ServiceState),
      s.service = some svc → svc.hasWebsocket = true → svc.isConnected = true →
      svc.sessionStarted = true → d ≠ "" → base64Decode d ≠ [] →
      (base64Decode d).length % 2 = 0 →
      (processAudioChunk (resumeRecording s).1 (some d)).forwarded =
        some (base64Decode d)) := by
  refine ⟨fun sid svc => rfl, fun s => rfl, ?_, ?_⟩
  · intro s d hrec
    unfold processAudioChunk
    simp [hrec]
  · intro s d svc hs hw hc hst hd hne heven
    unfold processAudioChunk
    have hlen : ¬ (base64Decode d).length = 0 := fun h0 => hne (List.length_eq_zero.mp h0)
    simp [resumeRecording, hd, hlen, heven, hs, sendAudioChunk, hw, hc, hst]

/-- C6 witness: pausing the active fixture makes a following frame a no-op,
and resuming makes the same frame reach the provider. -/
theorem C6_witness :
    (pauseRecording sessActive).1.isRecording = false ∧
    (processAudioChunk (pauseRecording sessActive).1 (some "AAAAAA")).forwarded = none ∧
    (processAudioChunk (resumeRecording (pauseRecording sessActive).1).1
        (some "AAAAAA")).forwarded = some (base64Decode "AAAAAA") :=
  ⟨C6_audio_gating.2.1 sessActive,
    (C6_audio_gating.2.2.1 (pauseRecording sessActive).1 (some "AAAAAA")
      (C6_audio_gating.2.1 sessActive)).2.1,
    C6_audio_gating.2.2.2 (pauseRecording sessActive).1 "AAAAAA" svcReady rfl rfl rfl rfl
      (by decide) (by decide) (by decide)⟩

/-- C2 counterexample: after processAudioChunk returns on a valid frame, the
session still holds a copy of the decoded frame in audioChunks, contradicting
the claim that no copy is retained beyond the forwarding call. -/
theorem C2_counterexample :
    (processAudioChunk sessActive (some "AAAAAA")).session.audioChunks =
      [base64Decode "AAAAAA"] ∧
    base64Decode "AAAAAA" ≠ [] := by decide

/-- C2 amended: an accepted frame is forwarded (or dropped) immediately and
never replayed, but a copy is retained: it is appended to
session.audioChunks and the chunk counter advances, so per-session audio
memory grows linearly with accepted frames rather than being O(1). -/
theorem C2_frame_retained (s : RecordingSession) (d : String)
    (hrec : s.isRecording = true) (hd : d ≠ "")
    (hne : base64Decode d ≠ []) (heven : (base64Decode d).length % 2 = 0) :
    (processAudioChunk s (some d)).session =
      { s with
        audioChunks := s.audioChunks ++ [base64Decode d]
        chunkCounter := s.chunkCounter + 1 } ∧
    (processAudioChunk s (some d)).forwarded =
      (match s.service with
        | some svc => sendAudioChunk svc (base64Decode d)
        | none => none) := by
  unfold processAudioChunk
  have hlen : ¬ (base64Decode d).length = 0 := fun h0 => hne (List.length_eq_zero.mp h0)
  cases hsv : s.service with
  | some svc => simp [hrec, hd, hlen, heven, hsv]
  | none => simp [hrec, hd, hlen, heven, hsv]

/-- C2 witness: the six-symbol payload decodes to four bytes, is forwarded,
and is also retained in the session buffer. -/
theorem C2_witness :
    (processAudioChunk sessActive (some "AAAAAA")).session =
      { sessActive with
        audioChunks := [base64Decode "AAAAAA"]
        chunkCounter := 1 } ∧
    (processAudioChunk sessActive (some "AAAAAA")).forwarded =
      some (base64Decode "AAAAAA") := by
  have h := C2_frame_retained sessActive "AAAAAA" rfl (by decide) (by decide) (by decide)
  exact ⟨h.1, h.2⟩

/-- C3 counterexample: after a provider Termination for the registered
session, the session is still in the registry (only the warning was sent),
and a subsequent audio_chunk is not a no-op: it still mutates the session
state, although nothing reaches the provider. -/
theorem C3_counterexample :
    ((deliverToRegistry [("s1", sessActive)] "s1" ProviderMessage.termination 0).1.map
        Prod.fst = ["s1"]) ∧
    ((deliverToRegistry [("s1", sessActive)] "s1" ProviderMessage.termination 0).2 =
      [ClientMsg.warningMsg "Real-time transcription disconnected"]) ∧
    ((processAudioChunk (deliverProviderMessage sessActive ProviderMessage.termination 0).1
        (some "AAAAAA")).session ≠
      (deliverProviderMessage sessActive ProviderMessage.termination 0).1) ∧
    ((processAudioChunk (deliverProviderMessage sessActive ProviderMessage.termination 0).1
        (some "AAAAAA")).forwarded = none) := by
  decide

/-- C3 amended: on a provider-initiated Termination the client receives the
warning message and the provider client records itself disconnected, so no
later frame is forwarded to the provider; but the session is not ended: no
registry entry is removed, and a later audio_chunk still mutates session
state. -/
theorem C3_disconnect_behavior (s : RecordingSession) (svc : ServiceState) (now : Nat)
    (hs : s.service = some svc) :
    deliverProviderMessage s ProviderMessage.termination now =
      ({ s with service := some { svc with isConnected := false } },
        [ClientMsg.warningMsg "Real-time transcription disconnected"]) ∧
    (∀ (reg : List (String × RecordingSession)) (sid : String),
      (deliverToRegistry reg sid ProviderMessage.termination now).1.map Prod.fst =
        reg.map Prod.fst) ∧
    (∀ d : Option String,
      (processAudioChunk
        { s with service := some { svc with isConnected := false } } d).forwarded =
        none) := by
  refine ⟨?_, ?_, ?_⟩
  · unfold deliverProviderMessage
    rw [hs]
    simp [handleStreamingMessage, dispatchServiceEvents, dispatchServiceEvent]
  · intro reg sid
    unfold deliverToRegistry
    simp only
    rw [List.map_map]
    induction reg with
    | nil => rfl
    | cons p ps ih =>
      simp only [List.map_cons, ih]
      by_cases h : p.1 = sid <;> simp [h]
  · intro d
    exact processAudioChunk_not_connected _ { svc with isConnected := false } d rfl rfl

/-- C3 witness: the active fixture after Termination sends exactly the
warning, keeps its registry entry shape, and forwards nothing afterwards. -/
theorem C3_witness :
    deliverProviderMessage sessActive ProviderMessage.termination 0 =
      ({ sessActive with service := some { svcReady with isConnected := false } },
        [ClientMsg.warningMsg "Real-time transcription disconnected"]) ∧
    (processAudioChunk
        { sessActive with service := some { svcReady with isConnected := false } }
        (some "AAAAAA")).forwarded = none :=
  ⟨(C3_disconnect_behavior sessActive svcReady 0 rfl).1,
    (C3_disconnect_behavior sessActive svcReady 0 rfl).2.2 (some "AAAAAA")⟩

/-- C4 counterexample: an odd-length PCM payload while recording produces no
client-visible message at all — the structured-error report the claim
promises does not happen for invalid audio payloads. -/
theorem C4_counterexample :
    (onClientMessage sessActive
        (RawClientMessage.parsed (ClientCommand.audioChunkCmd (some "AA"))) 0).clientMsgs =
      [] ∧
    (base64Decode "AA").length % 2 = 1 := by
  decide

/-- C4 amended: an unparseable command envelope is answered with the
structured Invalid message format error and the session continues; an
invalid audio payload (empty or odd decoded length) is non-fatal and logged,
but silently dropped from the client's point of view: no error message is
sent for it. -/
theorem C4_malformed_handling :
    (∀ (s : RecordingSession) (now : Nat),
      (onClientMessage s RawClientMessage.malformed now).session = s ∧
      (onClientMessage s RawClientMessage.malformed now).clientMsgs =
        [ClientMsg.errorMsg "Invalid message format"] ∧
      (onClientMessage s RawClientMessage.malformed now).logs ≠ []) ∧
    (∀ (s : RecordingSession) (d : String) (now : Nat),
      ((base64Decode d).length = 0 ∨ (base64Decode d).length % 2 = 1) →
      (onClientMessage s
          (RawClientMessage.parsed (ClientCommand.audioChunkCmd (some d))) now).session =
        s ∧
      (onClientMessage s
          (RawClientMessage.parsed (ClientCommand.audioChunkCmd (some d))) now).clientMsgs =
        [] ∧
      (onClientMessage s
          (RawClientMessage.parsed (ClientCommand.audioChunkCmd (some d))) now).forwarded =
        none ∧
      (onClientMessage s
          (RawClientMessage.parsed (ClientCommand.audioChunkCmd (some d))) now).logs ≠
        []) := by
  constructor
  · intro s now
    exact ⟨rfl, rfl, by simp [onClientMessage]⟩
  · intro s d now h
    show (processAudioChunk s (some d)).session = s ∧
      (processAudioChunk s (some d)).clientMsgs = [] ∧
      (processAudioChunk s (some d)).forwarded = none ∧
      (processAudioChunk s (some d)).logs ≠ []
    unfold processAudioChunk
    by_cases hrec : s.isRecording = true
    · simp only [hrec]
      by_cases hd : d = ""
      · simp [hd]
      · rcases h with h0 | h1
        · simp [hd, h0]
        · have h0 : ¬ (base64Decode d).length = 0 := by omega
          have h2 : (base64Decode d).length % 2 ≠ 0 := by omega
          simp [hd, h0, h2]
    · have hrec2 : s.isRecording = false := by
        cases hr : s.isRecording
        · rfl
        · exact absurd hr hrec
      simp [hrec2]

/-- C4 witness: the malformed-envelope branch and the odd-payload branch of
the amended statement at the active fixture. -/
theorem C4_witness :
    (onClientMessage sessActive RawClientMessage.malformed 0).clientMsgs =
      [ClientMsg.errorMsg "Invalid message format"] ∧
    ((base64Decode "AA").length = 0 ∨ (base64Decode "AA").length % 2 = 1) ∧
    (onClientMessage sessActive
        (RawClientMessage.parsed (ClientCommand.audioChunkCmd (some "AA"))) 0).logs ≠ [] :=
  ⟨(C4_malformed_handling.1 sessActive 0).2.1,
    Or.inr (by decide),
    (C4_malformed_handling.2 sessActive "AA" 0 (Or.inr (by decide))).2.2.2⟩

/-- C5 counterexample: a trace whose transport opens at 5000 ms and never
carries any provider message (in particular no Begin acknowledgement) still
resolves the connect promise, and the session-started flag stays false —
resolution does not wait for the SessionBegan-equivalent Begin message. -/
theorem C5_counterexample :
    connectOutcome [(5000, WsEvent.openEvent)] = ConnectOutcome.resolved ∧
    (([((5000 : Nat), WsEvent.openEvent)].all fun te =>
      match te.2 with
      | WsEvent.messageEvent _ => false
      | _ => true) = true) ∧
    (applyTrace svcInit [(5000, WsEvent.openEvent)]).sessionStarted = false := by
  decide

/-- C5 amended: the 10-second timeout concerns the transport open event, not
the Begin acknowledgement: connect resolves exactly when the socket open
event arrives within the window, and it rejects with the timeout error when
neither an open nor an error event occurs within the window. -/
theorem C5_resolution_semantics (trace : List (Nat × WsEvent)) :
    (connectOutcome trace = ConnectOutcome.resolved →
      ∃ t, (t, WsEvent.openEvent) ∈ trace ∧ t < 10000) ∧
    ((∀ t e, (t, e) ∈ trace → t < 10000 →
        e ≠ WsEvent.openEvent ∧ e ≠ WsEvent.errorEvent) →
      connectOutcome trace = ConnectOutcome.rejectedTimeout) := by
  induction trace with
  | nil =>
    constructor
    · intro h
      simp [connectOutcome] at h
    · intro _
      rfl
  | cons te rest ih =>
    obtain ⟨t, e⟩ := te
    constructor
    · intro h
      by_cases ht : t < 10000
      · cases e with
        | openEvent => exact ⟨t, by simp, ht⟩
        | errorEvent => simp [connectOutcome, ht] at h
        | closeEvent =>
          have h2 : connectOutcome rest = ConnectOutcome.resolved := by
            simpa [connectOutcome, ht] using h
          obtain ⟨t2, hmem, hlt⟩ := ih.1 h2
          exact ⟨t2, List.mem_cons_of_mem _ hmem, hlt⟩
        | messageEvent pm =>
          have h2 : connectOutcome rest = ConnectOutcome.resolved := by
            simpa [connectOutcome, ht] using h
          obtain ⟨t2, hmem, hlt⟩ := ih.1 h2
          exact ⟨t2, List.mem_cons_of_mem _ hmem, hlt⟩
      · simp [connectOutcome, ht] at h
    · intro hall
      by_cases ht : t < 10000
      · have he := hall t e (by simp) ht
        cases e with
        | openEvent => exact absurd rfl he.1
        | errorEvent => exact absurd rfl he.2
        | closeEvent =>
          simp only [connectOutcome, if_pos ht]
          exact ih.2 (fun t2 e2 hm hl => hall t2 e2 (List.mem_cons_of_mem _ hm) hl)
        | messageEvent pm =>
          simp only [connectOutcome, if_pos ht]
          exact ih.2 (fun t2 e2 hm hl => hall t2 e2 (List.mem_cons_of_mem _ hm) hl)
      · simp [connectOutcome, ht]

/-- C5 witness: a transport that only opens at 20000 ms makes connect reject
with the timeout error. -/
theorem C5_witness :
    connectOutcome [(20000, WsEvent.openEvent)] = ConnectOutcome.rejectedTimeout :=
  (C5_resolution_semantics [(20000, WsEvent.openEvent)]).2 (by
    intro t e hm hl
    simp at hm
    omega)

set_option maxRecDepth 100000 in
/-- C1 counterexample: delivering the same final Turn event for turn 0 twice
appends a second transcript block: the client-visible transcript grows and
the speaker map records two blocks, contradicting once-per-turn-order
idempotence. -/
theorem C1_counterexample :
    (deliverProviderMessage sessActive (ProviderMessage.turn turnFinal0) 5).1.fullTranscript.length <
      (deliverProviderMessage
        (deliverProviderMessage sessActive (ProviderMessage.turn turnFinal0) 5).1
        (ProviderMessage.turn turnFinal0) 6).1.fullTranscript.length ∧
    (deliverProviderMessage
        (deliverProviderMessage sessActive (ProviderMessage.turn turnFinal0) 5).1
        (ProviderMessage.turn turnFinal0) 6).1.speakerTranscript =
      [("Speaker A", ["hello there", "hello there"])] := by
  decide

/-- C1 amended: the engine never deduplicates by turn order: every final
Turn event whose transcript passes the non-blank guard appends a transcript
block, so a duplicate final event for an already finalized turn appends a
second block and the client-visible transcript strictly grows. -/
theorem C1_no_dedup (s : RecordingSession) (svc : ServiceState) (msg : TurnMessage)
    (now : Nat) (hs : s.service = some svc)
    (ht : transcriptBad msg.transcript = false)
    (hf : msg.end_of_turn = some true) :
    s.fullTranscript.length <
      (deliverProviderMessage s (ProviderMessage.turn msg) now).1.fullTranscript.length := by
  obtain ⟨st2, chunk, heq, htext, hfin⟩ := handleTurnMessage_final svc msg now ht
  have hchunkfin : chunk.isFinal = true := by rw [hfin, hf]; rfl
  have hchunktext : chunk.text ≠ "" := by
    rw [htext]
    exact transcript_nonempty_of_ok msg ht
  unfold deliverProviderMessage
  rw [hs]
  simp only [handleStreamingMessage, heq, List.map_cons, List.map_nil]
  simp only [dispatchServiceEvents, dispatchServiceEvent]
  have hgrow := onTranscription_final_grows { s with service := some st2 } chunk
    hchunkfin hchunktext
  simpa using hgrow

/-- C1 witness: the first delivery of the duplicate-prone final Turn already
grows the transcript of the active fixture. -/
theorem C1_witness :
    sessActive.fullTranscript.length <
      (deliverProviderMessage sessActive
        (ProviderMessage.turn turnFinal0) 5).1.fullTranscript.length :=
  C1_no_dedup sessActive svcReady turnFinal0 5 rfl (by decide) rfl

/-- C7: within one session the speaker label mapper is stable (the label of
an id seen in the history does not change however the history continues),
injective under sequential resolution (distinct ids receive distinct
labels), assigns the label of an id from its first-sighting rank, starting
at A, and falls back to the numeric-suffix form once the sixteen-letter
alphabet is exhausted; the assignment depends only on the first-sighting
sequence. -/
theorem C7_speaker_labels (ids : List String) :
    (∀ (k : String) (more : List String), k ∈ ids →
      (mapSpeakerToLetter (sessionMap ids) k).2 =
        (mapSpeakerToLetter (sessionMap (ids ++ more)) k).2) ∧
    (∀ a b : String, a ≠ b →
      (mapSpeakerToLetter (sessionMap ids) a).2 ≠
        (mapSpeakerToLetter ((mapSpeakerToLetter (sessionMap ids) a).1) b).2) ∧
    (∀ k : String, k ∈ ids →
      (mapSpeakerToLetter (sessionMap ids) k).2 =
        speakerLabelFor (firstIdx (keysNew ids []) k)) ∧
    speakerLabelFor 0 = "A" ∧
    (∀ i : Nat, 16 ≤ i → speakerLabelFor i = "Speaker" ++ Nat.repr (i + 1)) := by
  have hmemks : ∀ k, k ∈ ids → k ∈ keysNew ids [] := by
    intro k hk
    exact (keysNew_mem ids [] k).mpr ⟨hk, by simp⟩
  refine ⟨?_, ?_, ?_, rfl, speakerLabelFor_ge⟩
  · intro k more hk
    have hkin : k ∈ keysNew ids [] := hmemks k hk
    have hkin2 : k ∈ keysNew (ids ++ more) [] := by
      rw [keysNew_append ids more []]
      exact List.mem_append_left _ hkin
    rw [sessionMap_spec ids, sessionMap_spec (ids ++ more),
      mapSpeakerToLetter_enum, mapSpeakerToLetter_enum,
      if_pos hkin, if_pos hkin2]
    have hext : keysNew (ids ++ more) [] =
        keysNew ids [] ++ keysNew more ([] ++ keysNew ids []) :=
      keysNew_append ids more []
    simp only [List.nil_append] at hext
    rw [hext, firstIdx_append_mem (keysNew ids []) _ k hkin]
  · intro a b hab
    rw [sessionMap_spec ids]
    by_cases ha : a ∈ keysNew ids []
    · rw [mapSpeakerToLetter_enum, if_pos ha]
      by_cases hb : b ∈ keysNew ids []
      · rw [mapSpeakerToLetter_enum, if_pos hb]
        intro hc
        have := speakerLabelFor_injective hc
        exact hab (firstIdx_inj_mem (keysNew ids []) a b ha hb this)
      · rw [mapSpeakerToLetter_enum, if_neg hb]
        intro hc
        have := speakerLabelFor_injective hc
        have hlt := firstIdx_lt_length (keysNew ids []) a ha
        omega
    · rw [mapSpeakerToLetter_enum, if_neg ha]
      by_cases hb : b ∈ keysNew ids [] ++ [a]
      · have hb2 : b ∈ keysNew ids [] := by
          rcases List.mem_append.mp hb with h | h
          · exact h
          · exfalso
            apply hab
            symm
            simpa using h
        rw [mapSpeakerToLetter_enum, if_pos hb]
        intro hc
        have := speakerLabelFor_injective hc
        have hlt : firstIdx (keysNew ids [] ++ [a]) b < (keysNew ids []).length := by
          rw [firstIdx_append_mem (keysNew ids []) [a] b hb2]
          exact firstIdx_lt_length (keysNew ids []) b hb2
        omega
      · rw [mapSpeakerToLetter_enum, if_neg hb]
        intro hc
        have := speakerLabelFor_injective hc
        simp at this
  · intro k hk
    rw [sessionMap_spec ids, mapSpeakerToLetter_enum, if_pos (hmemks k hk)]

/-- C7 witness: in the history 7, 3, 7 the id 7 keeps rank zero (label A)
and the labels of 7 and of the subsequently resolved 3 differ. -/
theorem C7_witness :
    (mapSpeakerToLetter (sessionMap ["7", "3", "7"]) "7").2 =
      speakerLabelFor (firstIdx (keysNew ["7", "3", "7"] []) "7") ∧
    (mapSpeakerToLetter (sessionMap ["7", "3", "7"]) "7").2 ≠
      (mapSpeakerToLetter
        ((mapSpeakerToLetter (sessionMap ["7", "3", "7"]) "7").1) "3").2 :=
  ⟨(C7_speaker_labels ["7", "3", "7"]).2.2.1 "7" (by decide),
    (C7_speaker_labels ["7", "3", "7"]).2.1 "7" "3" (by decide)⟩

/-- C8: on a final Turn event whose word list carries at least one speaker
id, the emitted chunk attributes the turn to a speaker id dom that is most
frequent among the speaker-carrying words, with ties broken in favour of the
id occurring first in the word list, and renders it through the speaker
label mapper as Speaker X. -/
theorem C8_dominant_speaker (st : ServiceState) (msg : TurnMessage) (now : Nat)
    (ht : transcriptBad msg.transcript = false)
    (hf : msg.end_of_turn = some true)
    (hsp : wordSpeakers msg.words ≠ []) :
    ∃ (dom : String) (st2 : ServiceState),
      handleTurnMessage st msg now =
        (st2,
          [{ text := msg.transcript.getD ""
             timestamp := now
             confidence := calculateAverageConfidence msg.words
             speaker := some ("Speaker " ++ (mapSpeakerToLetter st.speakerMapping dom).2)
             isFinal := true
             turnOrder := msg.turn_order
             endOfTurn := true
             isFormatted := msg.turn_is_formatted.getD false }]) ∧
      dom ∈ wordSpeakers msg.words ∧
      (∀ x, (wordSpeakers msg.words).count x ≤ (wordSpeakers msg.words).count dom) ∧
      (∀ x ∈ wordSpeakers msg.words,
        (wordSpeakers msg.words).count x = (wordSpeakers msg.words).count dom →
        x ≠ dom →
        firstIdx (wordSpeakers msg.words) dom < firstIdx (wordSpeakers msg.words) x) := by
  have hwords : msg.words ≠ [] := by
    intro hw
    apply hsp
    rw [hw]
    rfl
  have hwlen : 0 < msg.words.length := List.length_pos.mpr hwords
  have hsplen : 0 < (wordSpeakers msg.words).length := List.length_pos.mpr hsp
  have hkeys : (((wordSpeakers msg.words).foldl bump []).map Prod.fst) =
      keysNew (wordSpeakers msg.words) [] := by
    have h := (counts_fold_spec (wordSpeakers msg.words) []).1
    simpa using h
  have hlook : ∀ k, lookupCount ((wordSpeakers msg.words).foldl bump []) k =
      (wordSpeakers msg.words).count k := by
    intro k
    have h := (counts_fold_spec (wordSpeakers msg.words) []).2 k
    simpa [lookupCount] using h
  have hnd : ((((wordSpeakers msg.words).foldl bump []).map Prod.fst)).Nodup := by
    rw [hkeys]
    exact keysNew_nodup _ _
  obtain ⟨c, rest, hcr⟩ : ∃ c rest,
      (wordSpeakers msg.words).foldl bump [] = c :: rest := by
    cases hc : (wordSpeakers msg.words).foldl bump [] with
    | nil =>
      exfalso
      have h1 : keysNew (wordSpeakers msg.words) [] = [] := by
        rw [← hkeys, hc]
        rfl
      cases hspc : wordSpeakers msg.words with
      | nil => exact hsp hspc
      | cons x xs =>
        rw [hspc] at h1
        simp [keysNew] at h1
    | cons c rest => exact ⟨c, rest, rfl⟩
  obtain ⟨r, pre, post, hfm, hsplit, hpre, hpost⟩ := firstMax_spec c rest
  have hdom : mostCommonSpeaker ((wordSpeakers msg.words).foldl bump []) = r.1 := by
    rw [hcr]
    simp [mostCommonSpeaker, hfm]
  have hcountsplit : (wordSpeakers msg.words).foldl bump [] = pre ++ r :: post := by
    rw [hcr]
    exact hsplit
  have hrmem : r ∈ (wordSpeakers msg.words).foldl bump [] := by
    rw [hcountsplit]
    simp
  have hrcount : (wordSpeakers msg.words).count r.1 = r.2 := by
    calc (wordSpeakers msg.words).count r.1
        = lookupCount ((wordSpeakers msg.words).foldl bump []) r.1 := (hlook r.1).symm
      _ = r.2 := mem_lookup _ r hnd hrmem
  have hentry : ∀ x, x ∈ wordSpeakers msg.words →
      ∃ q, q ∈ (wordSpeakers msg.words).foldl bump [] ∧ q.1 = x ∧
        q.2 = (wordSpeakers msg.words).count x := by
    intro x hx
    have hxk : x ∈ (((wordSpeakers msg.words).foldl bump []).map Prod.fst) := by
      rw [hkeys]
      exact (keysNew_mem _ [] x).mpr ⟨hx, by simp⟩
    obtain ⟨q, hq, hq1⟩ := List.mem_map.mp hxk
    refine ⟨q, hq, hq1, ?_⟩
    have hqv : lookupCount ((wordSpeakers msg.words).foldl bump []) q.1 = q.2 :=
      mem_lookup _ q hnd hq
    rw [← hq1, ← hqv, hlook]
  have hqle : ∀ q ∈ (wordSpeakers msg.words).foldl bump [], q.2 ≤ r.2 := by
    intro q hq
    rw [hcountsplit] at hq
    rcases List.mem_append.mp hq with h | h
    · exact le_of_lt (hpre q h)
    · rcases List.mem_cons.mp h with h | h
      · rw [h]
      · exact hpost q h
  refine ⟨r.1, (handleTurnMessage st msg now).1, ?_, ?_, ?_, ?_⟩
  · have hsnd : (handleTurnMessage st msg now).2 =
        [{ text := msg.transcript.getD ""
           timestamp := now
           confidence := calculateAverageConfidence msg.words
           speaker := some ("Speaker " ++ (mapSpeakerToLetter st.speakerMapping r.1).2)
           isFinal := true
           turnOrder := msg.turn_order
           endOfTurn := true
           isFormatted := msg.turn_is_formatted.getD false }] := by
      unfold handleTurnMessage
      simp only [ht, Bool.false_eq_true, if_false, if_pos hwlen, if_pos hsplen, hdom, hf]
      simp
    exact Prod.ext rfl hsnd
  · have : r.1 ∈ (((wordSpeakers msg.words).foldl bump []).map Prod.fst) :=
      List.mem_map_of_mem Prod.fst hrmem
    rw [hkeys] at this
    exact ((keysNew_mem _ [] r.1).mp this).1
  · intro x
    by_cases hx : x ∈ wordSpeakers msg.words
    · obtain ⟨q, hq, hq1, hq2⟩ := hentry x hx
      rw [hrcount, ← hq2]
      exact hqle q hq
    · rw [List.count_eq_zero_of_not_mem hx]
      exact Nat.zero_le _
  · intro x hx hcnt hxne
    obtain ⟨q, hq, hq1, hq2⟩ := hentry x hx
    have hq2r : q.2 = r.2 := by
      rw [hq2, hcnt, hrcount]
    have hqpost : q ∈ post := by
      rw [hcountsplit] at hq
      rcases List.mem_append.mp hq with h | h
      · exact absurd hq2r (by have := hpre q h; omega)
      · rcases List.mem_cons.mp h with h | h
        · exact absurd (by rw [← hq1, h] : x = r.1) hxne
        · exact h
    have hkeysplit : keysNew (wordSpeakers msg.words) [] =
        pre.map Prod.fst ++ r.1 :: post.map Prod.fst := by
      rw [← hkeys, hcountsplit]
      simp
    have hxin : x ∈ post.map Prod.fst := by
      rw [← hq1]
      exact List.mem_map_of_mem Prod.fst hqpost
    exact keysNew_order (wordSpeakers msg.words) [] (pre.map Prod.fst)
      (post.map Prod.fst) r.1 x hkeysplit hxin

/-- C8 witness: with word speakers 2, 1, 2, 1 both ids occur twice and the
tie is broken for 2, the id sighted first. -/
theorem C8_witness :
    ∃ (dom : String) (st2 : ServiceState),
      handleTurnMessage svcReady turnTie 9 =
        (st2,
          [{ text := turnTie.transcript.getD ""
             timestamp := 9
             confidence := calculateAverageConfidence turnTie.words
             speaker := some ("Speaker " ++ (mapSpeakerToLetter svcReady.speakerMapping dom).2)
             isFinal := true
             turnOrder := turnTie.turn_order
             endOfTurn := true
             isFormatted := turnTie.turn_is_formatted.getD false }]) ∧
      dom ∈ wordSpeakers turnTie.words ∧
      (∀ x, (wordSpeakers turnTie.words).count x ≤ (wordSpeakers turnTie.words).count dom) ∧
      (∀ x ∈ wordSpeakers turnTie.words,
        (wordSpeakers turnTie.words).count x = (wordSpeakers turnTie.words).count dom →
        x ≠ dom →
        firstIdx (wordSpeakers turnTie.words) dom <
          firstIdx (wordSpeakers turnTie.words) x) :=
  C8_dominant_speaker svcReady turnTie 9 (by decide) rfl (by decide)

end FireFlies

